import Mathlib

/-!
Shallow embedding of the deferred reference-counting (DRC) collector from
`crates/wasmtime/src/runtime/vm/gc/enabled/drc.rs`, together with proofs of
the specified properties.

Modelling conventions:
* a `VMGcRef` is its raw `u32` encoding, modelled as a `Nat`; the null
  encoding is `0` (`VMGcRef::from_raw_u32` returns `None` exactly on `0`),
  and the low tag bit distinguishes inline `i31` references (`is_i31`).
* the object heap (backing memory plus free list) is modelled as an
  association list from raw heap index to the object stored there; a key
  being present means the block is allocated.  `FreeList` itself lives in a
  different file of the repository and is treated as an external
  collaborator: `alloc_raw` receives its answer as an oracle argument.
* an object is its `VMDrcHeader` (`ref_count`, `object_size`, kind) plus the
  abstraction of its payload that the collector reads: `edges` is the list
  of raw `u32` values stored in the object's GC-ref fields (struct fields at
  the type's `gc_ref_offsets`, or array elements when `elems_are_gc_refs`),
  `hostData` is the `host_data` id of an `externref`, and `isExtern` records
  whether the object kind is `VMGcKind::ExternRef` (no outgoing edges).
* the bump pointers `next` and `end` of `VMGcRefTableAlloc` are slot indices
  into `chunk`; a slot is 4 bytes (`TableElem = u32`), so a byte distance
  between the two pointers is 4 times the index distance.
* the two hash sets of the activations table are modelled as duplicate-free
  lists; insertion is a no-op on an element already present, mirroring
  `HashSet::insert` (which also reports whether the element was new).
* panics (`unwrap` on a taken `dec_ref_stack`, `expect("non-null")` on a
  zero slot, decrementing a zero ref count) are modelled as no-ops or
  saturating arithmetic; every theorem that relies on a code path carries
  hypotheses keeping the model away from those panicking situations.
* host allocation success (for `grow_bump_chunk`) is an oracle `Bool`
  argument, and the external `ExternRefHostDataTable` is a list of live ids
  whose `dealloc` removes an id.
-/

set_option maxHeartbeats 1000000

set_option maxRecDepth 8192

namespace Drc

/-- Tag test for inline `i31` references: the low bit of the raw encoding.
Mirrors `VMGcRef::is_i31`. -/
def isI31 (raw : Nat) : Bool := raw % 2 == 1

/-- Mirrors `VMGcRef::from_raw_u32`: `None` exactly on the null encoding. -/
def fromRawU32 (raw : Nat) : Option Nat := if raw = 0 then none else some raw

/-- An object of the DRC heap: its `VMDrcHeader` plus the payload data the
collector reads (see the module docstring for the abstraction). -/
structure DrcObject where
  refCount : Nat
  objectSize : Nat
  isExtern : Bool
  hostData : Nat
  edges : List Nat
  deriving DecidableEq

/-- Look up the object allocated at raw index `r` (first matching entry). -/
def lookupObj : List (Nat × DrcObject) → Nat → Option DrcObject
  | [], _ => none
  | p :: rest, r => if p.1 = r then some p.2 else lookupObj rest r

/-- Remove the allocation at raw index `r` (models `FreeList::dealloc`). -/
def eraseObj : List (Nat × DrcObject) → Nat → List (Nat × DrcObject)
  | [], _ => []
  | p :: rest, r => if p.1 = r then rest else p :: eraseObj rest r

/-- Increment the ref count stored in the header at raw index `r`. -/
def incCount : List (Nat × DrcObject) → Nat → List (Nat × DrcObject)
  | [], _ => []
  | p :: rest, r =>
    (if p.1 = r then (p.1, { p.2 with refCount := p.2.refCount + 1 }) else p) ::
      incCount rest r

/-- Decrement the ref count stored in the header at raw index `r`. -/
def decCount : List (Nat × DrcObject) → Nat → List (Nat × DrcObject)
  | [], _ => []
  | p :: rest, r =>
    (if p.1 = r then (p.1, { p.2 with refCount := p.2.refCount - 1 }) else p) ::
      decCount rest r

/-- Install (or overwrite) the object at raw index `r`. -/
def setObj : List (Nat × DrcObject) → Nat → DrcObject → List (Nat × DrcObject)
  | [], r, o => [(r, o)]
  | p :: rest, r, o => if p.1 = r then (r, o) :: rest else p :: setObj rest r o

/-- The `TableElem` type of the bump region is `u32`, so each slot is 4
bytes; pointer differences in the source are byte differences. -/
def tableElemByteSize : Nat := 4

def KIB : Nat := 1024

def MIB : Nat := 1024 * KIB

/-- The bump-allocation substructure `VMGcRefTableAlloc`.  `next` and
`endIdx` model the `next` and `end` pointers as slot indices into `chunk`
(the source stores raw pointers; `end` is one past the last slot). -/
structure VMGcRefTableAlloc where
  next : Nat
  endIdx : Nat
  chunk : List Nat
  deriving DecidableEq

/-- Mirrors `VMGcRefTableAlloc::default`: an empty chunk with both fingers
at its (empty) beginning. -/
def VMGcRefTableAlloc.new : VMGcRefTableAlloc := { next := 0, endIdx := 0, chunk := [] }

/-- `INITIAL_CAPACITY = 4 KiB / size_of::<TableElem>()`. -/
def VMGcRefTableAlloc.INITIAL_CAPACITY : Nat := 4 * KIB / tableElemByteSize

/-- `MAX_CAPACITY = 128 MiB / size_of::<TableElem>()`. -/
def VMGcRefTableAlloc.MAX_CAPACITY : Nat := 128 * MIB / tableElemByteSize

/-- Mirrors `VMGcRefTableAlloc::capacity`. -/
def VMGcRefTableAlloc.capacity (a : VMGcRefTableAlloc) : Nat := a.chunk.length

/-- Mirrors `VMGcRefTableAlloc::len`: the source computes
`chunk.len() - (end - next) / size_of::<TableElem>()` (saturating), where
`end - next` is a byte distance; with slot indices the byte conversion
cancels. -/
def VMGcRefTableAlloc.len (a : VMGcRefTableAlloc) : Nat :=
  a.chunk.length - (a.endIdx - a.next)

/-- Mirrors `VMGcRefTableAlloc::reset`: move the fingers back to their
default positions (`next` at the chunk's beginning, `end` one past its
end).  The chunk contents are not touched. -/
def VMGcRefTableAlloc.reset (a : VMGcRefTableAlloc) : VMGcRefTableAlloc :=
  { a with next := 0, endIdx := a.chunk.length }

/-- Mirrors `VMGcRefTableAlloc::grow_bump_chunk`.  The source doubles the
capacity, clamps it (`min` with `MAX_CAPACITY`, then `max` with
`INITIAL_CAPACITY`) and allocates the new chunk with `alloc_zeroed`; on
host allocation failure (oracle `allocOk = false`) the existing chunk is
retained.  The fingers are not updated; callers must `reset` afterwards. -/
def VMGcRefTableAlloc.growBumpChunk (a : VMGcRefTableAlloc) (allocOk : Bool) :
    VMGcRefTableAlloc :=
  let newCap := min (a.capacity * 2) VMGcRefTableAlloc.MAX_CAPACITY
  let newCap := max newCap VMGcRefTableAlloc.INITIAL_CAPACITY
  if allocOk then { a with chunk := List.replicate newCap 0 } else a

/-- The `VMGcRefActivationsTable`: bump region plus the over-approximated
and precise root hash sets (modelled as duplicate-free lists). -/
structure VMGcRefActivationsTable where
  alloc : VMGcRefTableAlloc
  overApproximatedStackRoots : List Nat
  preciseStackRoots : List Nat
  deriving DecidableEq

/-- Mirrors `VMGcRefActivationsTable::new`. -/
def VMGcRefActivationsTable.new : VMGcRefActivationsTable :=
  { alloc := VMGcRefTableAlloc.new
    overApproximatedStackRoots := []
    preciseStackRoots := [] }

/-- Mirrors `VMGcRefActivationsTable::reset`: reset the bump fingers and
clear both hash sets. -/
def VMGcRefActivationsTable.reset (t : VMGcRefActivationsTable) : VMGcRefActivationsTable :=
  { alloc := t.alloc.reset
    overApproximatedStackRoots := []
    preciseStackRoots := [] }

/-- Mirrors `VMGcRefActivationsTable::bump_capacity_remaining`: the byte
distance `end - next` between the two raw pointers (each slot index stands
for `tableElemByteSize` bytes of address). -/
def VMGcRefActivationsTable.bumpCapacityRemaining (t : VMGcRefActivationsTable) : Nat :=
  tableElemByteSize * t.alloc.endIdx - tableElemByteSize * t.alloc.next

/-- Modelled from the spec: the claim measures the remaining capacity as a
number of unfilled slots (`capacity - len`), not bytes.  This definition
exists only to compare the spec's reading of
`need_gc_before_entering_wasm` with the source's. -/
def VMGcRefActivationsTable.specRemainingSlots (t : VMGcRefActivationsTable) : Nat :=
  t.alloc.capacity - t.alloc.len

/-- Insertion into one of the modelled hash sets: a no-op when the element
is already present. -/
def insertSet (s : List Nat) (r : Nat) : List Nat := if r ∈ s then s else r :: s

/-- Mirrors `VMGcRefActivationsTable::try_insert`: fail (returning the ref)
when `next == end`; otherwise write the raw encoding into the slot at
`next` and advance `next` by one slot. -/
def VMGcRefActivationsTable.tryInsert (t : VMGcRefActivationsTable) (gcRef : Nat) :
    VMGcRefActivationsTable × Except Nat Unit :=
  if t.alloc.next = t.alloc.endIdx then (t, Except.error gcRef)
  else
    ({ t with alloc := { t.alloc with
          chunk := t.alloc.chunk.set t.alloc.next gcRef
          next := t.alloc.next + 1 } },
     Except.ok ())

/-- Mirrors `VMGcRefActivationsTable::insert_slow_without_gc`. -/
def VMGcRefActivationsTable.insertSlowWithoutGc (t : VMGcRefActivationsTable) (gcRef : Nat) :
    VMGcRefActivationsTable :=
  { t with overApproximatedStackRoots := insertSet t.overApproximatedStackRoots gcRef }

/-- Mirrors `VMGcRefActivationsTable::insert_without_gc`. -/
def VMGcRefActivationsTable.insertWithoutGc (t : VMGcRefActivationsTable) (gcRef : Nat) :
    VMGcRefActivationsTable :=
  match t.tryInsert gcRef with
  | (t', Except.ok _) => t'
  | (t', Except.error r) => t'.insertSlowWithoutGc r

/-- Per-type tracing information, as cached in `DrcHeap::trace_infos`. -/
inductive TraceInfo where
  | array (gcRefElems : Bool)
  | struct (gcRefOffsets : List Nat)
  deriving DecidableEq

/-- The `GcLayout` supplied by the engine's type registry (an external
collaborator): either an array layout or a struct layout whose fields
carry their offset and whether they hold a GC ref. -/
inductive GcLayoutModel where
  | array (elemsAreGcRefs : Bool)
  | struct (fields : List (Nat × Bool))
  deriving DecidableEq

/-- The derivation performed by `DrcHeap::insert_new_trace_info`: keep an
array's `elems_are_gc_refs` flag, and for a struct keep exactly the
offsets of the fields with `is_gc_ref`. -/
def deriveTraceInfo : GcLayoutModel → TraceInfo
  | GcLayoutModel.array b => TraceInfo.array b
  | GcLayoutModel.struct fields =>
    TraceInfo.struct (fields.filterMap (fun f => if f.2 then some f.1 else none))

/-- Membership test in the trace-info cache. -/
def hasTraceInfo : List (Nat × TraceInfo) → Nat → Bool
  | [], _ => false
  | p :: rest, ty => if p.1 = ty then true else hasTraceInfo rest ty

/-- The `VMGcHeader` passed to `alloc_raw`: its kind (only whether it is
`ExternRef` matters to this model) and optional type index. -/
structure VMGcHeaderM where
  isExternKind : Bool
  ty : Option Nat
  deriving DecidableEq

/-- A precise root surfaced by the stack walker (external collaborator):
the raw ref and whether it sits in a Wasm frame. -/
structure GcRoot where
  raw : Nat
  onWasmStack : Bool
  deriving DecidableEq

/-- The `DrcHeap`.  `objects` models the backing memory plus free list (a
key present means the block is allocated); `decRefStack` is the reusable
worklist vector (`None` while taken out, acting as the reentrancy
guard). -/
structure DrcHeap where
  traceInfos : List (Nat × TraceInfo)
  noGcCount : Nat
  activationsTable : VMGcRefActivationsTable
  objects : List (Nat × DrcObject)
  decRefStack : Option (List Nat)
  deriving DecidableEq

/-- Mirrors `DrcHeap::new` (detached, empty worklist in place). -/
def DrcHeap.new : DrcHeap :=
  { traceInfos := []
    noGcCount := 0
    activationsTable := VMGcRefActivationsTable.new
    objects := []
    decRefStack := some [] }

/-- Mirrors `DrcHeap::inc_ref`: a no-op on `i31`, otherwise bump the header
ref count. -/
def DrcHeap.incRef (h : DrcHeap) (gcRef : Nat) : DrcHeap :=
  if isI31 gcRef then h
  else { h with objects := incCount h.objects gcRef }

/-- The refs pushed by `DrcHeap::trace_gc_ref`: none for an `externref`,
otherwise every non-null raw value read out of the object's GC-ref slots
(struct fields at the cached offsets, or array elements). -/
def traceGcRefPushes (o : DrcObject) : List Nat :=
  if o.isExtern then [] else o.edges.filterMap fromRawU32

/-- Termination measure helper: an object contributes its ref count plus
its number of GC-ref slots. -/
def objMeasure (o : DrcObject) : Nat := o.refCount + o.edges.length

/-- Termination measure over the allocated objects. -/
def heapMeasure (objs : List (Nat × DrcObject)) : Nat :=
  (objs.map (fun p => objMeasure p.2)).sum

/-- The worklist loop inside `DrcHeap::dec_ref_and_maybe_dealloc`: pop a
ref; `dec_ref` it (no-op on `i31`); if the count reached zero, push the
object's outgoing refs, drop an `externref`'s host-data entry, and return
the block to the free list.  The host-data table is threaded through. -/
def cascadeLoop (hostDataTable : List Nat) (objs : List (Nat × DrcObject))
    (stack : List Nat) : List Nat × List (Nat × DrcObject) :=
  match stack with
  | [] => (hostDataTable, objs)
  | gcRef :: rest =>
    if isI31 gcRef then cascadeLoop hostDataTable objs rest
    else
      match hLook : lookupObj objs gcRef with
      | none => cascadeLoop hostDataTable objs rest
      | some o =>
        if o.refCount ≤ 1 then
          let pushed := traceGcRefPushes o
          let hostDataTable' :=
            if o.isExtern then hostDataTable.erase o.hostData else hostDataTable
          cascadeLoop hostDataTable' (eraseObj objs gcRef) (pushed.reverse ++ rest)
        else
          cascadeLoop hostDataTable (decCount objs gcRef) rest
termination_by heapMeasure objs + stack.length
decreasing_by
· simp only [List.length_cons]
  omega
· simp only [List.length_cons]
  omega
· have hpush : (traceGcRefPushes o).length ≤ o.edges.length := by
    unfold traceGcRefPushes
    split
    · simp
    · exact List.length_filterMap_le _ _
  have hMcons : ∀ (x : Nat × DrcObject) (l : List (Nat × DrcObject)),
      heapMeasure (x :: l) = objMeasure x.2 + heapMeasure l := by
    intro x l
    simp [heapMeasure]
  have herase : ∀ (l : List (Nat × DrcObject)), lookupObj l gcRef = some o →
      heapMeasure (eraseObj l gcRef) + objMeasure o = heapMeasure l := by
    intro l
    induction l with
    | nil => intro hl; simp [lookupObj] at hl
    | cons hd tl ih =>
      intro hl
      by_cases hk : hd.1 = gcRef
      · have hho : hd.2 = o := by
          simpa [lookupObj, hk] using hl
        have e1 : eraseObj (hd :: tl) gcRef = tl := by
          simp [eraseObj, hk]
        rw [e1, hMcons, hho]
        omega
      · have hl' : lookupObj tl gcRef = some o := by
          simpa [lookupObj, hk] using hl
        have ih' := ih hl'
        have e1 : eraseObj (hd :: tl) gcRef = hd :: eraseObj tl gcRef := by
          simp [eraseObj, hk]
        rw [e1, hMcons, hMcons]
        omega
  have h1 := herase objs hLook
  have h2 : objMeasure o = o.refCount + o.edges.length := rfl
  simp only [List.length_append, List.length_reverse, List.length_cons]
  omega
· have hMcons : ∀ (x : Nat × DrcObject) (l : List (Nat × DrcObject)),
      heapMeasure (x :: l) = objMeasure x.2 + heapMeasure l := by
    intro x l
    simp [heapMeasure]
  have hdec : ∀ (l : List (Nat × DrcObject)),
      heapMeasure (decCount l gcRef) ≤ heapMeasure l := by
    intro l
    induction l with
    | nil => simp [decCount]
    | cons hd tl ih =>
      by_cases hk : hd.1 = gcRef
      · have e1 : decCount (hd :: tl) gcRef
            = (hd.1, { hd.2 with refCount := hd.2.refCount - 1 }) :: decCount tl gcRef := by
          simp [decCount, hk]
        rw [e1, hMcons, hMcons]
        have hobj : objMeasure
            ((hd.1, { hd.2 with refCount := hd.2.refCount - 1 }) : Nat × DrcObject).2
              ≤ objMeasure hd.2 := by
          show (hd.2.refCount - 1) + hd.2.edges.length ≤ hd.2.refCount + hd.2.edges.length
          omega
        exact Nat.add_le_add hobj ih
      · have e1 : decCount (hd :: tl) gcRef = hd :: decCount tl gcRef := by
          simp [decCount, hk]
        rw [e1, hMcons, hMcons]
        omega
  have := hdec objs
  simp only [List.length_cons]
  omega

/-- Mirrors `DrcHeap::dec_ref_and_maybe_dealloc`: take the worklist out of
the heap (a `None` worklist means reentry, on which the source would
panic on `unwrap`), run the cascade, and put the drained worklist back. -/
def DrcHeap.decRefAndMaybeDealloc (hostDataTable : List Nat) (h : DrcHeap) (gcRef : Nat) :
    List Nat × DrcHeap :=
  match h.decRefStack with
  | none => (hostDataTable, h)
  | some _ =>
    let p := cascadeLoop hostDataTable h.objects [gcRef]
    (p.1, { h with objects := p.2, decRefStack := some [] })

/-- Mirrors `DrcHeap::write_gc_ref` (the write barrier): first `inc_ref`
the source if present, then `dec_ref_and_maybe_dealloc` the destination's
old value if present, then overwrite the slot with the source. -/
def DrcHeap.writeGcRef (hostDataTable : List Nat) (h : DrcHeap)
    (destination : Option Nat) (source : Option Nat) :
    List Nat × DrcHeap × Option Nat :=
  let h1 := match source with
    | some src => h.incRef src
    | none => h
  let p := match destination with
    | some dest => DrcHeap.decRefAndMaybeDealloc hostDataTable h1 dest
    | none => (hostDataTable, h1)
  (p.1, p.2, source)

/-- Mirrors `DrcHeap::expose_gc_ref_to_wasm`. -/
def DrcHeap.exposeGcRefToWasm (h : DrcHeap) (gcRef : Nat) : DrcHeap :=
  { h with activationsTable := h.activationsTable.insertWithoutGc gcRef }

/-- Mirrors `DrcHeap::need_gc_before_entering_wasm`: compares the number of
refs about to enter Wasm against `bump_capacity_remaining()`. -/
def DrcHeap.needGcBeforeEnteringWasm (h : DrcHeap) (numGcRefs : Nat) : Bool :=
  decide (numGcRefs > h.activationsTable.bumpCapacityRemaining)

/-- Mirrors `DrcHeap::ensure_trace_info`: install the derived trace info
unless the type is already cached.  The layout is the answer of the
external type registry for this type index. -/
def DrcHeap.ensureTraceInfo (h : DrcHeap) (ty : Nat) (layout : GcLayoutModel) : DrcHeap :=
  if hasTraceInfo h.traceInfos ty then h
  else { h with traceInfos := (ty, deriveTraceInfo layout) :: h.traceInfos }

/-- Mirrors `DrcHeap::alloc_raw`.  `freeListResult` is the oracle answer of
`FreeList::alloc` (the free list lives in another file of the repository):
`none` means no suitable block, on which the recoverable `Err(layout.size)`
is returned.  On success the header is written with `ref_count = 1` and
`object_size = layout.size`; a fresh object's payload is uninitialized, so
the model records no outgoing edges yet.  The activations table is not
touched. -/
def DrcHeap.allocRaw (h : DrcHeap) (header : VMGcHeaderM) (layout : GcLayoutModel)
    (layoutSize : Nat) (freeListResult : Option Nat) : DrcHeap × Except Nat Nat :=
  let h1 := match header.ty with
    | some ty => h.ensureTraceInfo ty layout
    | none => h
  match freeListResult with
  | none => (h1, Except.error layoutSize)
  | some idx =>
    let obj : DrcObject :=
      { refCount := 1
        objectSize := layoutSize
        isExtern := header.isExternKind
        hostData := 0
        edges := [] }
    ({ h1 with objects := setObj h1.objects idx obj }, Except.ok idx)

/-- One step of `DrcHeap::trace`: skip roots not on the Wasm stack and
`i31` roots; insert the ref into the precise set and, exactly when it was
newly inserted, `inc_ref` it. -/
def DrcHeap.traceOneRoot (h : DrcHeap) (root : GcRoot) : DrcHeap :=
  if !root.onWasmStack then h
  else if isI31 root.raw then h
  else if root.raw ∈ h.activationsTable.preciseStackRoots then h
  else
    let h1 := { h with activationsTable :=
      { h.activationsTable with
        preciseStackRoots := root.raw :: h.activationsTable.preciseStackRoots } }
    h1.incRef root.raw

/-- Mirrors `DrcHeap::trace`: process every root from the stack walker. -/
def DrcHeap.trace (h : DrcHeap) (roots : List GcRoot) : DrcHeap :=
  roots.foldl DrcHeap.traceOneRoot h

/-- Zero the first `n` slots of a chunk, which is what the sweep's
`mem::take`/`*slot = 0` loop leaves behind. -/
def zeroFirstSlots (n : Nat) (l : List Nat) : List Nat :=
  List.replicate (min n l.length) 0 ++ l.drop n

/-- The per-slot loop of `DrcHeap::sweep_bump_chunk`: read each filled
slot's raw value and `dec_ref_and_maybe_dealloc` it (the source asserts a
filled slot is non-null via `expect("non-null")`; a zero slot is skipped
here, the code would panic). -/
def DrcHeap.sweepChunkSlots (hostDataTable : List Nat) (h : DrcHeap) :
    List Nat → List Nat × DrcHeap
  | [] => (hostDataTable, h)
  | raw :: rest =>
    match fromRawU32 raw with
    | none => DrcHeap.sweepChunkSlots hostDataTable h rest
    | some gcRef =>
      let p := DrcHeap.decRefAndMaybeDealloc hostDataTable h gcRef
      DrcHeap.sweepChunkSlots p.1 p.2 rest

/-- Mirrors `DrcHeap::sweep_bump_chunk`: note whether the chunk was at
capacity, dec-ref every filled slot (zeroing it), grow the chunk if it was
full, and reset the bump fingers. -/
def DrcHeap.sweepBumpChunk (allocOk : Bool) (hostDataTable : List Nat) (h : DrcHeap) :
    List Nat × DrcHeap :=
  let a := h.activationsTable.alloc
  let len := a.len
  let bumpChunkWasFull := len = a.capacity
  let p := DrcHeap.sweepChunkSlots hostDataTable h (a.chunk.take len)
  let a1 := { a with chunk := zeroFirstSlots len a.chunk }
  let a2 := if bumpChunkWasFull then a1.growBumpChunk allocOk else a1
  let a3 := a2.reset
  (p.1, { p.2 with activationsTable := { p.2.activationsTable with alloc := a3 } })

/-- The hash-set drain at the end of `DrcHeap::sweep`:
`dec_ref_and_maybe_dealloc` every element. -/
def DrcHeap.drainRoots (hostDataTable : List Nat) (h : DrcHeap) :
    List Nat → List Nat × DrcHeap
  | [] => (hostDataTable, h)
  | gcRef :: rest =>
    let p := DrcHeap.decRefAndMaybeDealloc hostDataTable h gcRef
    DrcHeap.drainRoots p.1 p.2 rest

/-- Mirrors `DrcHeap::sweep`: sweep the bump chunk, swap the precise set
with the over-approximated set, then take the new precise set (the old
over-approximation) and dec-ref each of its elements, leaving the precise
set empty (its capacity retained). -/
def DrcHeap.sweep (allocOk : Bool) (hostDataTable : List Nat) (h : DrcHeap) :
    List Nat × DrcHeap :=
  let p := DrcHeap.sweepBumpChunk allocOk hostDataTable h
  let t := p.2.activationsTable
  let tSwapped := { t with
    overApproximatedStackRoots := t.preciseStackRoots
    preciseStackRoots := t.overApproximatedStackRoots }
  let toDrain := tSwapped.preciseStackRoots
  let h1 := { p.2 with activationsTable := { tSwapped with preciseStackRoots := [] } }
  DrcHeap.drainRoots p.1 h1 toDrain

/-- A linear chain of `n` structs for the deep-chain scenario: object `j`
(for `j < n`) lives at raw index `2 * (j + 1)` with ref count 1 and, except
for the last, a single edge to the next object.  `chainObjs k n` is the
suffix of the chain starting at object `k`. -/
def chainObjs : Nat → Nat → List (Nat × DrcObject)
  | _, 0 => []
  | k, n + 1 =>
    (2 * (k + 1),
      { refCount := 1
        objectSize := 24
        isExtern := false
        hostData := 0
        edges := if n = 0 then [] else [2 * (k + 2)] }) :: chainObjs (k + 1) n

/-- A heap holding exactly the `n`-object chain. -/
def chainDrcHeap (n : Nat) : DrcHeap := { DrcHeap.new with objects := chainObjs 0 n }

/-- Safety of a ref against the deallocation cascade: no allocated object
stores `r` in any of its GC-ref slots. -/
def EdgeSafe (r : Nat) (objs : List (Nat × DrcObject)) : Prop :=
  ∀ p ∈ objs, ∀ e ∈ p.2.edges, e ≠ r

instance (r : Nat) (objs : List (Nat × DrcObject)) : Decidable (EdgeSafe r objs) := by
  unfold EdgeSafe
  infer_instance

theorem lookupObj_incCount_self (objs : List (Nat × DrcObject)) (r : Nat) :
    lookupObj (incCount objs r) r =
      (lookupObj objs r).map (fun o => { o with refCount := o.refCount + 1 }) := by
  induction objs with
  | nil => rfl
  | cons hd tl ih =>
    by_cases hk : hd.1 = r
    · simp [incCount, lookupObj, hk]
    · simp [incCount, lookupObj, hk, ih]

theorem lookupObj_incCount_ne (objs : List (Nat × DrcObject)) (s r : Nat) (hne : s ≠ r) :
    lookupObj (incCount objs s) r = lookupObj objs r := by
  induction objs with
  | nil => rfl
  | cons hd tl ih =>
    have hrs : ¬ r = s := fun hh => hne hh.symm
    by_cases hk : hd.1 = s
    · have hkr : ¬ hd.1 = r := by rw [hk]; exact hne
      simp [incCount, lookupObj, hk, hkr, hne, ih]
    · by_cases hr : hd.1 = r
      · simp [incCount, lookupObj, hk, hr, hrs]
      · simp [incCount, lookupObj, hk, hr, hrs, ih]

theorem lookupObj_decCount_self (objs : List (Nat × DrcObject)) (r : Nat) :
    lookupObj (decCount objs r) r =
      (lookupObj objs r).map (fun o => { o with refCount := o.refCount - 1 }) := by
  induction objs with
  | nil => rfl
  | cons hd tl ih =>
    by_cases hk : hd.1 = r
    · simp [decCount, lookupObj, hk]
    · simp [decCount, lookupObj, hk, ih]

theorem lookupObj_decCount_ne (objs : List (Nat × DrcObject)) (s r : Nat) (hne : s ≠ r) :
    lookupObj (decCount objs s) r = lookupObj objs r := by
  induction objs with
  | nil => rfl
  | cons hd tl ih =>
    have hrs : ¬ r = s := fun hh => hne hh.symm
    by_cases hk : hd.1 = s
    · have hkr : ¬ hd.1 = r := by rw [hk]; exact hne
      simp [decCount, lookupObj, hk, hkr, hne, ih]
    · by_cases hr : hd.1 = r
      · simp [decCount, lookupObj, hk, hr, hrs]
      · simp [decCount, lookupObj, hk, hr, hrs, ih]

theorem lookupObj_eraseObj_ne (objs : List (Nat × DrcObject)) (s r : Nat) (hne : s ≠ r) :
    lookupObj (eraseObj objs s) r = lookupObj objs r := by
  induction objs with
  | nil => rfl
  | cons hd tl ih =>
    have hrs : ¬ r = s := fun hh => hne hh.symm
    by_cases hk : hd.1 = s
    · have hkr : ¬ hd.1 = r := by rw [hk]; exact hne
      simp [eraseObj, lookupObj, hk, hkr, hne]
    · by_cases hr : hd.1 = r
      · simp [eraseObj, lookupObj, hk, hr, hrs]
      · simp [eraseObj, lookupObj, hk, hr, hrs, ih]

theorem lookupObj_setObj_self (objs : List (Nat × DrcObject)) (r : Nat) (o : DrcObject) :
    lookupObj (setObj objs r o) r = some o := by
  induction objs with
  | nil => simp [setObj, lookupObj]
  | cons hd tl ih =>
    by_cases hk : hd.1 = r
    · simp [setObj, lookupObj, hk]
    · simp [setObj, lookupObj, hk, ih]

theorem lookupObj_mem (objs : List (Nat × DrcObject)) (r : Nat) (o : DrcObject)
    (hl : lookupObj objs r = some o) : (r, o) ∈ objs := by
  induction objs with
  | nil => simp [lookupObj] at hl
  | cons hd tl ih =>
    by_cases hk : hd.1 = r
    · have hho : hd.2 = o := by simpa [lookupObj, hk] using hl
      have : (r, o) = hd := by
        rw [← hk, ← hho]
      simp [this]
    · have hl' : lookupObj tl r = some o := by simpa [lookupObj, hk] using hl
      exact List.mem_cons_of_mem _ (ih hl')

theorem edgeSafe_incCount {r : Nat} {objs : List (Nat × DrcObject)}
    (hs : EdgeSafe r objs) (s : Nat) : EdgeSafe r (incCount objs s) := by
  induction objs with
  | nil => simpa [incCount] using hs
  | cons hd tl ih =>
    have hhd := hs hd (List.mem_cons_self _ _)
    have htl : EdgeSafe r tl := fun p hp => hs p (List.mem_cons_of_mem _ hp)
    intro p hp
    rcases List.mem_cons.mp hp with hph | hptl
    · subst hph
      by_cases hk : hd.1 = s <;> simp [incCount, hk] <;> exact hhd
    · exact ih htl p (by simpa [incCount] using hptl)

theorem edgeSafe_decCount {r : Nat} {objs : List (Nat × DrcObject)}
    (hs : EdgeSafe r objs) (s : Nat) : EdgeSafe r (decCount objs s) := by
  induction objs with
  | nil => simpa [decCount] using hs
  | cons hd tl ih =>
    have hhd := hs hd (List.mem_cons_self _ _)
    have htl : EdgeSafe r tl := fun p hp => hs p (List.mem_cons_of_mem _ hp)
    intro p hp
    rcases List.mem_cons.mp hp with hph | hptl
    · subst hph
      by_cases hk : hd.1 = s <;> simp [decCount, hk] <;> exact hhd
    · exact ih htl p (by simpa [decCount] using hptl)

theorem edgeSafe_eraseObj {r : Nat} {objs : List (Nat × DrcObject)}
    (hs : EdgeSafe r objs) (s : Nat) : EdgeSafe r (eraseObj objs s) := by
  induction objs with
  | nil => simpa [eraseObj] using hs
  | cons hd tl ih =>
    have hhd := hs hd (List.mem_cons_self _ _)
    have htl : EdgeSafe r tl := fun p hp => hs p (List.mem_cons_of_mem _ hp)
    intro p hp
    by_cases hk : hd.1 = s
    · exact htl p (by simpa [eraseObj, hk] using hp)
    · rcases List.mem_cons.mp (by simpa [eraseObj, hk] using hp) with hph | hptl
      · subst hph; exact hhd
      · exact ih htl p hptl

theorem edgeSafe_pushes {r : Nat} {objs : List (Nat × DrcObject)} {s : Nat} {o : DrcObject}
    (hs : EdgeSafe r objs) (hl : lookupObj objs s = some o) :
    ∀ e ∈ traceGcRefPushes o, e ≠ r := by
  intro e he
  have hedges := hs (s, o) (lookupObj_mem objs s o hl)
  unfold traceGcRefPushes at he
  split at he
  · simp at he
  · obtain ⟨a, ha, hfa⟩ := List.mem_filterMap.mp he
    have hae : a = e := by
      unfold fromRawU32 at hfa
      split at hfa
      · cases hfa
      · exact Option.some.inj hfa
    exact hae ▸ hedges a ha

theorem cascadeLoop_frame (r : Nat) :
    ∀ (hdt : List Nat) (objs : List (Nat × DrcObject)) (stack : List Nat),
      EdgeSafe r objs → (∀ s ∈ stack, s ≠ r) →
      lookupObj (cascadeLoop hdt objs stack).2 r = lookupObj objs r ∧
      EdgeSafe r (cascadeLoop hdt objs stack).2 := by
  intro hdt objs stack
  induction hdt, objs, stack using cascadeLoop.induct with
  | case1 hdt objs =>
    intro hsafe _
    rw [cascadeLoop]
    exact ⟨rfl, hsafe⟩
  | case2 hdt objs gcRef rest hi31 ih =>
    intro hsafe hstk
    rw [cascadeLoop, if_pos hi31]
    exact ih hsafe (fun s hs => hstk s (List.mem_cons_of_mem _ hs))
  | case3 hdt objs gcRef rest hi31 hnone ih =>
    intro hsafe hstk
    rw [cascadeLoop, if_neg hi31]
    split
    · exact ih hsafe (fun s hs => hstk s (List.mem_cons_of_mem _ hs))
    · next o' heq => rw [hnone] at heq; cases heq
  | case4 hdt objs gcRef rest hi31 o hsome hrc pushed hdt' ih =>
    intro hsafe hstk
    have hgr : gcRef ≠ r := hstk gcRef (List.mem_cons_self _ _)
    have hstk' : ∀ s ∈ (traceGcRefPushes o).reverse ++ rest, s ≠ r := by
      intro s hs
      rcases List.mem_append.mp hs with hp | hr'
      · exact edgeSafe_pushes hsafe hsome s (List.mem_reverse.mp hp)
      · exact hstk s (List.mem_cons_of_mem _ hr')
    have hsafe' : EdgeSafe r (eraseObj objs gcRef) := edgeSafe_eraseObj hsafe gcRef
    have ih' := ih hsafe' hstk'
    rw [cascadeLoop, if_neg hi31]
    split
    · next heq => rw [hsome] at heq; cases heq
    · next o' heq =>
      rw [hsome] at heq
      injection heq with ho
      subst ho
      rw [if_pos hrc]
      exact ⟨ih'.1.trans (lookupObj_eraseObj_ne objs gcRef r hgr), ih'.2⟩
  | case5 hdt objs gcRef rest hi31 o hsome hrc ih =>
    intro hsafe hstk
    have hgr : gcRef ≠ r := hstk gcRef (List.mem_cons_self _ _)
    have hsafe' : EdgeSafe r (decCount objs gcRef) := edgeSafe_decCount hsafe gcRef
    have ih' := ih hsafe' (fun s hs => hstk s (List.mem_cons_of_mem _ hs))
    rw [cascadeLoop, if_neg hi31]
    split
    · next heq => rw [hsome] at heq; cases heq
    · next o' heq =>
      rw [hsome] at heq
      injection heq with ho
      subst ho
      rw [if_neg hrc]
      exact ⟨ih'.1.trans (lookupObj_decCount_ne objs gcRef r hgr), ih'.2⟩

theorem decRef_other_frame (r s : Nat) (hdt : List Nat) (h : DrcHeap)
    (hsafe : EdgeSafe r h.objects) (hne : s ≠ r) :
    lookupObj (DrcHeap.decRefAndMaybeDealloc hdt h s).2.objects r = lookupObj h.objects r ∧
    EdgeSafe r (DrcHeap.decRefAndMaybeDealloc hdt h s).2.objects ∧
    (DrcHeap.decRefAndMaybeDealloc hdt h s).2.activationsTable = h.activationsTable ∧
    (h.decRefStack = some [] →
      (DrcHeap.decRefAndMaybeDealloc hdt h s).2.decRefStack = some []) := by
  unfold DrcHeap.decRefAndMaybeDealloc
  cases hds : h.decRefStack with
  | none =>
    refine ⟨rfl, hsafe, rfl, ?_⟩
    intro hc
    exact Option.noConfusion hc
  | some l =>
    have hcf := cascadeLoop_frame r hdt h.objects [s] hsafe
      (by intro x hx; rcases List.mem_singleton.mp hx with rfl; exact hne)
    exact ⟨hcf.1, hcf.2, rfl, fun _ => rfl⟩

theorem decRef_activations_frame (hdt : List Nat) (h : DrcHeap) (s : Nat) :
    (DrcHeap.decRefAndMaybeDealloc hdt h s).2.activationsTable = h.activationsTable ∧
    (DrcHeap.decRefAndMaybeDealloc hdt h s).2.noGcCount = h.noGcCount := by
  unfold DrcHeap.decRefAndMaybeDealloc
  cases h.decRefStack <;> exact ⟨rfl, rfl⟩

theorem decRef_single (hdt : List Nat) (h : DrcHeap) (r : Nat) (o : DrcObject) (l : List Nat)
    (hds : h.decRefStack = some l) (hi : isI31 r = false)
    (hl : lookupObj h.objects r = some o) (hrc : 2 ≤ o.refCount) :
    DrcHeap.decRefAndMaybeDealloc hdt h r =
      (hdt, { h with objects := decCount h.objects r, decRefStack := some [] }) := by
  unfold DrcHeap.decRefAndMaybeDealloc
  rw [hds]
  have e1 : cascadeLoop hdt h.objects [r] = (hdt, decCount h.objects r) := by
    rw [cascadeLoop, if_neg (by simp [hi])]
    split
    · next heq => rw [hl] at heq; cases heq
    · next o' heq =>
      rw [hl] at heq
      injection heq with ho
      subst ho
      rw [if_neg (by omega), cascadeLoop]
  rw [e1]

theorem decCount_incCount (objs : List (Nat × DrcObject)) (r : Nat) :
    decCount (incCount objs r) r = objs := by
  induction objs with
  | nil => rfl
  | cons hd tl ih =>
    by_cases hk : hd.1 = r
    · simp [incCount, decCount, hk, ih]
      rw [← hk]
    · simp [incCount, decCount, hk, ih]

theorem sweepChunkSlots_frame (r : Nat) (slots : List Nat) :
    ∀ (hdt : List Nat) (h : DrcHeap),
      EdgeSafe r h.objects → (∀ s ∈ slots, s ≠ r) → h.decRefStack = some [] →
      lookupObj (DrcHeap.sweepChunkSlots hdt h slots).2.objects r = lookupObj h.objects r ∧
      EdgeSafe r (DrcHeap.sweepChunkSlots hdt h slots).2.objects ∧
      (DrcHeap.sweepChunkSlots hdt h slots).2.activationsTable = h.activationsTable ∧
      (DrcHeap.sweepChunkSlots hdt h slots).2.decRefStack = some [] := by
  induction slots with
  | nil =>
    intro hdt h hsafe _ hds
    exact ⟨rfl, hsafe, rfl, hds⟩
  | cons a t ih =>
    intro hdt h hsafe hne hds
    cases hf : fromRawU32 a with
    | none =>
      simp only [DrcHeap.sweepChunkSlots, hf]
      exact ih hdt h hsafe (fun s hs => hne s (List.mem_cons_of_mem _ hs)) hds
    | some g =>
      have hga : g = a := by
        unfold fromRawU32 at hf
        split at hf
        · cases hf
        · exact (Option.some.inj hf).symm
      have hgr : g ≠ r := by
        rw [hga]
        exact hne a (List.mem_cons_self _ _)
      have hd := decRef_other_frame r g hdt h hsafe hgr
      have ihh := ih (DrcHeap.decRefAndMaybeDealloc hdt h g).1
        (DrcHeap.decRefAndMaybeDealloc hdt h g).2 hd.2.1
        (fun s hs => hne s (List.mem_cons_of_mem _ hs)) (hd.2.2.2 hds)
      simp only [DrcHeap.sweepChunkSlots, hf]
      exact ⟨ihh.1.trans hd.1, ihh.2.1, ihh.2.2.1.trans hd.2.2.1, ihh.2.2.2⟩

theorem sweepChunkSlots_activations (slots : List Nat) :
    ∀ (hdt : List Nat) (h : DrcHeap),
      (DrcHeap.sweepChunkSlots hdt h slots).2.activationsTable = h.activationsTable := by
  induction slots with
  | nil => intro hdt h; rfl
  | cons a t ih =>
    intro hdt h
    cases hf : fromRawU32 a with
    | none =>
      simp only [DrcHeap.sweepChunkSlots, hf]
      exact ih hdt h
    | some g =>
      simp only [DrcHeap.sweepChunkSlots, hf]
      exact (ih _ _).trans (decRef_activations_frame hdt h g).1

theorem drainRoots_frame (r : Nat) (roots : List Nat) :
    ∀ (hdt : List Nat) (h : DrcHeap),
      EdgeSafe r h.objects → (∀ s ∈ roots, s ≠ r) → h.decRefStack = some [] →
      lookupObj (DrcHeap.drainRoots hdt h roots).2.objects r = lookupObj h.objects r ∧
      EdgeSafe r (DrcHeap.drainRoots hdt h roots).2.objects ∧
      (DrcHeap.drainRoots hdt h roots).2.activationsTable = h.activationsTable ∧
      (DrcHeap.drainRoots hdt h roots).2.decRefStack = some [] := by
  induction roots with
  | nil =>
    intro hdt h hsafe _ hds
    exact ⟨rfl, hsafe, rfl, hds⟩
  | cons a t ih =>
    intro hdt h hsafe hne hds
    have har : a ≠ r := hne a (List.mem_cons_self _ _)
    have hd := decRef_other_frame r a hdt h hsafe har
    have ihh := ih (DrcHeap.decRefAndMaybeDealloc hdt h a).1
      (DrcHeap.decRefAndMaybeDealloc hdt h a).2 hd.2.1
      (fun s hs => hne s (List.mem_cons_of_mem _ hs)) (hd.2.2.2 hds)
    exact ⟨ihh.1.trans hd.1, ihh.2.1, ihh.2.2.1.trans hd.2.2.1, ihh.2.2.2⟩

theorem drainRoots_activations (roots : List Nat) :
    ∀ (hdt : List Nat) (h : DrcHeap),
      (DrcHeap.drainRoots hdt h roots).2.activationsTable = h.activationsTable := by
  induction roots with
  | nil => intro hdt h; rfl
  | cons a t ih =>
    intro hdt h
    exact (ih _ _).trans (decRef_activations_frame hdt h a).1

theorem sweepChunkSlots_append (hdt : List Nat) (h : DrcHeap) (l1 l2 : List Nat) :
    DrcHeap.sweepChunkSlots hdt h (l1 ++ l2) =
      DrcHeap.sweepChunkSlots (DrcHeap.sweepChunkSlots hdt h l1).1
        (DrcHeap.sweepChunkSlots hdt h l1).2 l2 := by
  induction l1 generalizing hdt h with
  | nil => rfl
  | cons a t ih =>
    show DrcHeap.sweepChunkSlots hdt h (a :: (t ++ l2)) = _
    cases hf : fromRawU32 a with
    | none =>
      simp only [DrcHeap.sweepChunkSlots, hf]
      exact ih hdt h
    | some g =>
      simp only [DrcHeap.sweepChunkSlots, hf]
      exact ih _ _

theorem sweepChunkSlots_single (hdt : List Nat) (h : DrcHeap) (r : Nat) (hr0 : r ≠ 0) :
    DrcHeap.sweepChunkSlots hdt h [r] = DrcHeap.decRefAndMaybeDealloc hdt h r := by
  have hfr : fromRawU32 r = some r := by
    unfold fromRawU32
    rw [if_neg hr0]
  simp only [DrcHeap.sweepChunkSlots, hfr]

theorem sweepChunkSlots_dec_once (r : Nat) (pre hdt : List Nat) (h : DrcHeap) (ob : DrcObject)
    (hr0 : r ≠ 0) (hi31 : isI31 r = false)
    (hl : lookupObj h.objects r = some ob) (hrc2 : 2 ≤ ob.refCount)
    (hsafe : EdgeSafe r h.objects) (hpre : ∀ s ∈ pre, s ≠ r)
    (hds : h.decRefStack = some []) :
    lookupObj (DrcHeap.sweepChunkSlots hdt h (pre ++ [r])).2.objects r =
      some { ob with refCount := ob.refCount - 1 } ∧
    EdgeSafe r (DrcHeap.sweepChunkSlots hdt h (pre ++ [r])).2.objects ∧
    (DrcHeap.sweepChunkSlots hdt h (pre ++ [r])).2.activationsTable = h.activationsTable ∧
    (DrcHeap.sweepChunkSlots hdt h (pre ++ [r])).2.decRefStack = some [] := by
  have hf1 := sweepChunkSlots_frame r pre hdt h hsafe hpre hds
  set q := DrcHeap.sweepChunkSlots hdt h pre with hq
  have hlq : lookupObj q.2.objects r = some ob := hf1.1.trans hl
  have hone := decRef_single q.1 q.2 r ob [] hf1.2.2.2 hi31 hlq hrc2
  rw [sweepChunkSlots_append, ← hq, sweepChunkSlots_single q.1 q.2 r hr0, hone]
  refine ⟨?_, edgeSafe_decCount hf1.2.1 r, hf1.2.2.1, rfl⟩
  show lookupObj (decCount q.2.objects r) r = some { ob with refCount := ob.refCount - 1 }
  rw [lookupObj_decCount_self, hlq]
  rfl

theorem drainRoots_dec_once (r : Nat) (rest hdt : List Nat) (h : DrcHeap) (ob : DrcObject)
    (hi31 : isI31 r = false)
    (hl : lookupObj h.objects r = some ob) (hrc2 : 2 ≤ ob.refCount)
    (hsafe : EdgeSafe r h.objects) (hrest : ∀ s ∈ rest, s ≠ r)
    (hds : h.decRefStack = some []) :
    lookupObj (DrcHeap.drainRoots hdt h (r :: rest)).2.objects r =
      some { ob with refCount := ob.refCount - 1 } ∧
    EdgeSafe r (DrcHeap.drainRoots hdt h (r :: rest)).2.objects ∧
    (DrcHeap.drainRoots hdt h (r :: rest)).2.activationsTable = h.activationsTable ∧
    (DrcHeap.drainRoots hdt h (r :: rest)).2.decRefStack = some [] := by
  have hone := decRef_single hdt h r ob [] hds hi31 hl hrc2
  have hstep : DrcHeap.drainRoots hdt h (r :: rest) =
      DrcHeap.drainRoots (DrcHeap.decRefAndMaybeDealloc hdt h r).1
        (DrcHeap.decRefAndMaybeDealloc hdt h r).2 rest := rfl
  rw [hstep, hone]
  have hl' : lookupObj (decCount h.objects r) r =
      some { ob with refCount := ob.refCount - 1 } := by
    rw [lookupObj_decCount_self, hl]
    rfl
  have hf := drainRoots_frame r rest hdt
    { h with objects := decCount h.objects r, decRefStack := some [] }
    (edgeSafe_decCount hsafe r) hrest rfl
  exact ⟨hf.1.trans hl', hf.2.1, hf.2.2.1, hf.2.2.2⟩

theorem sweep_decomposed (allocOk : Bool) (hdt : List Nat) (h : DrcHeap) :
    DrcHeap.sweep allocOk hdt h =
      DrcHeap.drainRoots (DrcHeap.sweepBumpChunk allocOk hdt h).1
        { (DrcHeap.sweepBumpChunk allocOk hdt h).2 with activationsTable :=
            { alloc := (DrcHeap.sweepBumpChunk allocOk hdt h).2.activationsTable.alloc
              overApproximatedStackRoots :=
                (DrcHeap.sweepBumpChunk allocOk hdt h).2.activationsTable.preciseStackRoots
              preciseStackRoots := [] } }
        (DrcHeap.sweepBumpChunk allocOk hdt h).2.activationsTable.overApproximatedStackRoots :=
  rfl

theorem sweepBumpChunk_objects (allocOk : Bool) (hdt : List Nat) (h : DrcHeap) :
    (DrcHeap.sweepBumpChunk allocOk hdt h).2.objects =
      (DrcHeap.sweepChunkSlots hdt h
        (h.activationsTable.alloc.chunk.take h.activationsTable.alloc.len)).2.objects :=
  rfl

theorem sweepBumpChunk_hdt (allocOk : Bool) (hdt : List Nat) (h : DrcHeap) :
    (DrcHeap.sweepBumpChunk allocOk hdt h).1 =
      (DrcHeap.sweepChunkSlots hdt h
        (h.activationsTable.alloc.chunk.take h.activationsTable.alloc.len)).1 :=
  rfl

theorem sweepBumpChunk_decRefStack (allocOk : Bool) (hdt : List Nat) (h : DrcHeap) :
    (DrcHeap.sweepBumpChunk allocOk hdt h).2.decRefStack =
      (DrcHeap.sweepChunkSlots hdt h
        (h.activationsTable.alloc.chunk.take h.activationsTable.alloc.len)).2.decRefStack :=
  rfl

theorem sweepBumpChunk_over (allocOk : Bool) (hdt : List Nat) (h : DrcHeap) :
    (DrcHeap.sweepBumpChunk allocOk hdt h).2.activationsTable.overApproximatedStackRoots =
      (DrcHeap.sweepChunkSlots hdt h
        (h.activationsTable.alloc.chunk.take
          h.activationsTable.alloc.len)).2.activationsTable.overApproximatedStackRoots :=
  rfl

theorem sweepBumpChunk_precise (allocOk : Bool) (hdt : List Nat) (h : DrcHeap) :
    (DrcHeap.sweepBumpChunk allocOk hdt h).2.activationsTable.preciseStackRoots =
      (DrcHeap.sweepChunkSlots hdt h
        (h.activationsTable.alloc.chunk.take
          h.activationsTable.alloc.len)).2.activationsTable.preciseStackRoots :=
  rfl

theorem sweepBumpChunk_alloc (allocOk : Bool) (hdt : List Nat) (h : DrcHeap) :
    (DrcHeap.sweepBumpChunk allocOk hdt h).2.activationsTable.alloc =
      VMGcRefTableAlloc.reset
        (if h.activationsTable.alloc.len = h.activationsTable.alloc.capacity
          then VMGcRefTableAlloc.growBumpChunk
            { h.activationsTable.alloc with
                chunk := zeroFirstSlots h.activationsTable.alloc.len
                  h.activationsTable.alloc.chunk } allocOk
          else { h.activationsTable.alloc with
                  chunk := zeroFirstSlots h.activationsTable.alloc.len
                    h.activationsTable.alloc.chunk }) :=
  rfl

theorem zeroFirstSlots_all_zero {n : Nat} {l : List Nat}
    (hz : ∀ s ∈ l.drop n, s = 0) : ∀ s ∈ zeroFirstSlots n l, s = 0 := by
  intro s hs
  rcases List.mem_append.mp hs with hrep | hdrop
  · exact List.eq_of_mem_replicate hrep
  · exact hz s hdrop

theorem zeroFirstSlots_length (n : Nat) (l : List Nat) :
    (zeroFirstSlots n l).length = l.length := by
  simp [zeroFirstSlots]
  omega

theorem growBumpChunk_all_zero {a : VMGcRefTableAlloc} (allocOk : Bool)
    (hz : ∀ s ∈ a.chunk, s = 0) : ∀ s ∈ (a.growBumpChunk allocOk).chunk, s = 0 := by
  unfold VMGcRefTableAlloc.growBumpChunk
  split
  · intro s hs
    exact List.eq_of_mem_replicate hs
  · exact hz

theorem take_set_succ (l : List Nat) :
    ∀ (n x : Nat), n < l.length → (l.set n x).take (n + 1) = l.take n ++ [x] := by
  induction l with
  | nil => intro n x hn; cases hn
  | cons a t ih =>
    intro n x hn
    cases n with
    | zero => rfl
    | succ m =>
      have hm : m < t.length := by simpa using hn
      simp only [List.set_cons_succ, List.take_succ_cons, List.cons_append]
      rw [ih m x hm]

theorem insertWithoutGc_fast (t : VMGcRefActivationsTable) (r : Nat)
    (hne : t.alloc.next ≠ t.alloc.endIdx) :
    t.insertWithoutGc r =
      { t with alloc := { t.alloc with
          chunk := t.alloc.chunk.set t.alloc.next r
          next := t.alloc.next + 1 } } := by
  unfold VMGcRefActivationsTable.insertWithoutGc VMGcRefActivationsTable.tryInsert
  rw [if_neg hne]

theorem insertWithoutGc_slow (t : VMGcRefActivationsTable) (r : Nat)
    (he : t.alloc.next = t.alloc.endIdx) :
    t.insertWithoutGc r =
      { t with overApproximatedStackRoots := insertSet t.overApproximatedStackRoots r } := by
  unfold VMGcRefActivationsTable.insertWithoutGc VMGcRefActivationsTable.tryInsert
    VMGcRefActivationsTable.insertSlowWithoutGc
  rw [if_pos he]

theorem traceOneRoot_frame (h : DrcHeap) (c : GcRoot) :
    (h.traceOneRoot c).activationsTable.alloc = h.activationsTable.alloc ∧
    (h.traceOneRoot c).activationsTable.overApproximatedStackRoots =
      h.activationsTable.overApproximatedStackRoots ∧
    (h.traceOneRoot c).decRefStack = h.decRefStack ∧
    (h.traceOneRoot c).noGcCount = h.noGcCount := by
  unfold DrcHeap.traceOneRoot DrcHeap.incRef
  split
  · exact ⟨rfl, rfl, rfl, rfl⟩
  split
  · exact ⟨rfl, rfl, rfl, rfl⟩
  split
  · exact ⟨rfl, rfl, rfl, rfl⟩
  · exact ⟨rfl, rfl, rfl, rfl⟩

theorem trace_frame (roots : List GcRoot) :
    ∀ h : DrcHeap,
      (h.trace roots).activationsTable.alloc = h.activationsTable.alloc ∧
      (h.trace roots).activationsTable.overApproximatedStackRoots =
        h.activationsTable.overApproximatedStackRoots ∧
      (h.trace roots).decRefStack = h.decRefStack ∧
      (h.trace roots).noGcCount = h.noGcCount := by
  induction roots with
  | nil => intro h; exact ⟨rfl, rfl, rfl, rfl⟩
  | cons c t ih =>
    intro h
    have h1 := traceOneRoot_frame h c
    have h2 := ih (h.traceOneRoot c)
    exact ⟨h2.1.trans h1.1, h2.2.1.trans h1.2.1, h2.2.2.1.trans h1.2.2.1,
      h2.2.2.2.trans h1.2.2.2⟩

theorem trace_keep (roots : List GcRoot) :
    ∀ (h : DrcHeap) (r : Nat) (v : DrcObject),
      lookupObj h.objects r = some v → EdgeSafe r h.objects →
      r ∈ h.activationsTable.preciseStackRoots →
      lookupObj (h.trace roots).objects r = some v ∧
      EdgeSafe r (h.trace roots).objects ∧
      r ∈ (h.trace roots).activationsTable.preciseStackRoots := by
  induction roots with
  | nil =>
    intro h r v hl hsafe hmem
    exact ⟨hl, hsafe, hmem⟩
  | cons c t ih =>
    intro h r v hl hsafe hmem
    have hone : lookupObj (h.traceOneRoot c).objects r = some v ∧
        EdgeSafe r (h.traceOneRoot c).objects ∧
        r ∈ (h.traceOneRoot c).activationsTable.preciseStackRoots := by
      unfold DrcHeap.traceOneRoot DrcHeap.incRef
      split
      · exact ⟨hl, hsafe, hmem⟩
      split
      · exact ⟨hl, hsafe, hmem⟩
      split
      · exact ⟨hl, hsafe, hmem⟩
      next hnotmem =>
        have hcr : c.raw ≠ r := fun hh => hnotmem (hh ▸ hmem)
        exact ⟨(lookupObj_incCount_ne _ _ _ hcr).trans hl, edgeSafe_incCount hsafe _,
          List.mem_cons_of_mem _ hmem⟩
    exact ih _ r v hone.1 hone.2.1 hone.2.2

theorem trace_inc (roots : List GcRoot) :
    ∀ (h : DrcHeap) (r : Nat) (o : DrcObject),
      isI31 r = false →
      lookupObj h.objects r = some o → EdgeSafe r h.objects →
      r ∉ h.activationsTable.preciseStackRoots →
      (⟨r, true⟩ : GcRoot) ∈ roots →
      lookupObj (h.trace roots).objects r = some { o with refCount := o.refCount + 1 } ∧
      EdgeSafe r (h.trace roots).objects ∧
      r ∈ (h.trace roots).activationsTable.preciseStackRoots := by
  induction roots with
  | nil =>
    intro h r o _ _ _ _ hmem
    simp at hmem
  | cons c t ih =>
    intro h r o hi31 hl hsafe hnot hmem
    by_cases hcr : c.raw = r ∧ c.onWasmStack = true
    · obtain ⟨hcr1, hcr2⟩ := hcr
      have hone : lookupObj (h.traceOneRoot c).objects r =
          some { o with refCount := o.refCount + 1 } ∧
          EdgeSafe r (h.traceOneRoot c).objects ∧
          r ∈ (h.traceOneRoot c).activationsTable.preciseStackRoots := by
        unfold DrcHeap.traceOneRoot DrcHeap.incRef
        rw [hcr2, hcr1]
        rw [if_neg (by simp), if_neg (by simp [hi31]), if_neg hnot, if_neg (by simp [hi31])]
        refine ⟨?_, edgeSafe_incCount hsafe r, List.mem_cons_self _ _⟩
        rw [lookupObj_incCount_self, hl]
        rfl
      exact trace_keep t _ r _ hone.1 hone.2.1 hone.2.2
    · have hmem' : (⟨r, true⟩ : GcRoot) ∈ t := by
        rcases List.mem_cons.mp hmem with hh | hh
        · exfalso
          apply hcr
          constructor
          · rw [← hh]
          · rw [← hh]
        · exact hh
      have hone : lookupObj (h.traceOneRoot c).objects r = some o ∧
          EdgeSafe r (h.traceOneRoot c).objects ∧
          r ∉ (h.traceOneRoot c).activationsTable.preciseStackRoots := by
        unfold DrcHeap.traceOneRoot DrcHeap.incRef
        split
        · exact ⟨hl, hsafe, hnot⟩
        next hwasm =>
          have hwasm' : c.onWasmStack = true := by
            simpa using hwasm
          have hcraw : c.raw ≠ r := by
            intro hh
            exact hcr ⟨hh, hwasm'⟩
          split
          · exact ⟨hl, hsafe, hnot⟩
          split
          · exact ⟨hl, hsafe, hnot⟩
          · have hnotprec : r ∉ c.raw :: h.activationsTable.preciseStackRoots := by
              intro hh
              rcases List.mem_cons.mp hh with hh1 | hh2
              · exact hcraw hh1.symm
              · exact hnot hh2
            exact ⟨(lookupObj_incCount_ne _ _ _ hcraw).trans hl,
              edgeSafe_incCount hsafe _, hnotprec⟩
      exact ih _ r o hi31 hone.1 hone.2.1 hone.2.2 hmem'

theorem cascadeLoop_chain :
    ∀ (n k : Nat) (hdt : List Nat),
      cascadeLoop hdt (chainObjs k n) [2 * (k + 1)] = (hdt, []) := by
  intro n
  induction n with
  | zero =>
    intro k hdt
    rw [cascadeLoop, if_neg (by simp [isI31, Nat.mul_mod_right])]
    split
    · rw [cascadeLoop]
      rfl
    · next o' heq => exact Option.noConfusion heq
  | succ m ih =>
    intro k hdt
    rw [cascadeLoop, if_neg (by simp [isI31, Nat.mul_mod_right])]
    split
    · next heq =>
      rw [show lookupObj (chainObjs k (m + 1)) (2 * (k + 1)) =
          some ⟨1, 24, false, 0, if m = 0 then [] else [2 * (k + 2)]⟩ from by
        simp [chainObjs, lookupObj]] at heq
      cases heq
    · next o' heq =>
      have hlook : lookupObj (chainObjs k (m + 1)) (2 * (k + 1)) =
          some ⟨1, 24, false, 0, if m = 0 then [] else [2 * (k + 2)]⟩ := by
        simp [chainObjs, lookupObj]
      have ho' : o' = ⟨1, 24, false, 0, if m = 0 then [] else [2 * (k + 2)]⟩ :=
        (Option.some.inj (hlook.symm.trans heq)).symm
      subst ho'
      rw [if_pos (le_refl 1)]
      have herase : eraseObj (chainObjs k (m + 1)) (2 * (k + 1)) = chainObjs (k + 1) m := by
        simp [chainObjs, eraseObj]
      cases m with
      | zero =>
        rw [herase]
        show cascadeLoop hdt (chainObjs (k + 1) 0) [] = (hdt, [])
        rw [cascadeLoop]
        rfl
      | succ mm =>
        rw [herase]
        have hfr : fromRawU32 (2 * (k + 2)) = some (2 * (k + 2)) := by
          unfold fromRawU32
          rw [if_neg (by omega)]
        have hpush : traceGcRefPushes ⟨1, 24, false, 0,
            if mm + 1 = 0 then [] else [2 * (k + 2)]⟩ = [2 * (k + 2)] := by
          unfold traceGcRefPushes
          simp [List.filterMap, hfr]
        rw [hpush]
        show cascadeLoop hdt (chainObjs (k + 1) (mm + 1)) [2 * ((k + 1) + 1)] = (hdt, [])
        exact ih (k + 1) hdt

theorem ensureTraceInfo_shape (h : DrcHeap) (ty : Nat) (layout : GcLayoutModel) :
    h.ensureTraceInfo ty layout =
      { h with traceInfos := (h.ensureTraceInfo ty layout).traceInfos } := by
  unfold DrcHeap.ensureTraceInfo
  split <;> rfl

/-- C2: the source compares the incoming ref count against
`bump_capacity_remaining()`, which is the byte distance between the `end`
and `next` pointers — not the claim's slot count.  At one remaining slot
(4 remaining bytes) and `n = 2`, the source answers `false` while the
claim demands `true`. -/
theorem drc_need_gc_slots_counterexample :
    ¬ (DrcHeap.needGcBeforeEnteringWasm
          ⟨[], 0, ⟨⟨3, 4, [7, 7, 7, 0]⟩, [], []⟩, [], some []⟩ 2 = true ↔
        2 > VMGcRefActivationsTable.specRemainingSlots ⟨⟨3, 4, [7, 7, 7, 0]⟩, [], []⟩) := by
  decide

/-- C2 (amended): for every `n ≥ 1`, `need_gc_before_entering_wasm(n)`
returns `true` if and only if `n` is strictly greater than the remaining
bump-chunk capacity measured in bytes (`end - next`, i.e. 4 bytes per
remaining slot), not in slots. -/
theorem drc_need_gc_measures_bytes :
    ∀ (h : DrcHeap) (numGcRefs : Nat), 1 ≤ numGcRefs →
      (h.needGcBeforeEnteringWasm numGcRefs = true ↔
        numGcRefs > h.activationsTable.bumpCapacityRemaining) := by
  intro h n _
  simp [DrcHeap.needGcBeforeEnteringWasm]

/-- Witness for the amended C2 theorem at a concrete table with 4
remaining bytes and `n = 5`. -/
theorem drc_need_gc_measures_bytes_witness :
    DrcHeap.needGcBeforeEnteringWasm
        ⟨[], 0, ⟨⟨3, 4, [7, 7, 7, 0]⟩, [], []⟩, [], some []⟩ 5 = true ↔
      5 > VMGcRefActivationsTable.bumpCapacityRemaining ⟨⟨3, 4, [7, 7, 7, 0]⟩, [], []⟩ :=
  drc_need_gc_measures_bytes ⟨[], 0, ⟨⟨3, 4, [7, 7, 7, 0]⟩, [], []⟩, [], some []⟩ 5 (by decide)

/-- C3: `reset()` does not zero the filled prefix of the chunk.  On a
table whose single slot holds the raw value 6 (with `next` one past it),
the slot still holds 6 after `reset()`, even though `next` was moved back
to the beginning — falsifying the claim's "after reset() every slot of the
chunk at or beyond next is zero". -/
theorem drc_reset_not_zeroing_counterexample :
    ¬ (∀ s ∈ (VMGcRefActivationsTable.reset ⟨⟨1, 1, [6]⟩, [], []⟩).alloc.chunk, s = 0) := by
  decide

/-- C3 (amended): `reset()` moves `next` back to the beginning of the
chunk and `end` to one past its end and clears both the over-approximated
and the precise set, leaving the chunk contents untouched (the zeroing of
the filled prefix is performed by the sweep, not by `reset()`). -/
theorem drc_reset_moves_fingers_clears_sets :
    ∀ t : VMGcRefActivationsTable,
      t.reset = ⟨⟨0, t.alloc.chunk.length, t.alloc.chunk⟩, [], []⟩ :=
  fun _ => rfl

/-- C7: `try_insert(r)` with `next == end` fails with `Err(r)` and leaves
the whole table untouched; otherwise it returns `Ok`, writes `r`'s raw
encoding into the slot at `next` (leaving every other slot unchanged),
advances `next` by exactly one slot, and touches neither `end` nor the two
hash sets.  The function does not touch any object header, so no ref count
changes in either case. -/
theorem drc_try_insert_spec :
    ∀ (t : VMGcRefActivationsTable) (gcRef : Nat),
      t.alloc.next ≤ t.alloc.endIdx →
      t.alloc.endIdx ≤ t.alloc.chunk.length →
      ((t.alloc.next = t.alloc.endIdx →
          t.tryInsert gcRef = (t, Except.error gcRef)) ∧
        (t.alloc.next ≠ t.alloc.endIdx →
          (t.tryInsert gcRef).2 = Except.ok () ∧
          (t.tryInsert gcRef).1.alloc.chunk[t.alloc.next]? = some gcRef ∧
          (∀ i, i ≠ t.alloc.next →
            (t.tryInsert gcRef).1.alloc.chunk[i]? = t.alloc.chunk[i]?) ∧
          (t.tryInsert gcRef).1.alloc.next = t.alloc.next + 1 ∧
          (t.tryInsert gcRef).1.alloc.endIdx = t.alloc.endIdx ∧
          (t.tryInsert gcRef).1.overApproximatedStackRoots = t.overApproximatedStackRoots ∧
          (t.tryInsert gcRef).1.preciseStackRoots = t.preciseStackRoots)) := by
  intro t gcRef hle hlen
  constructor
  · intro he
    simp only [VMGcRefActivationsTable.tryInsert, if_pos he]
  · intro hne
    have hlt : t.alloc.next < t.alloc.chunk.length :=
      lt_of_lt_of_le (lt_of_le_of_ne hle hne) hlen
    have e1 : t.tryInsert gcRef =
        ({ t with alloc := { t.alloc with
              chunk := t.alloc.chunk.set t.alloc.next gcRef
              next := t.alloc.next + 1 } },
          Except.ok ()) := by
      simp only [VMGcRefActivationsTable.tryInsert, if_neg hne]
    rw [e1]
    refine ⟨rfl, List.getElem?_set_self hlt, ?_, rfl, rfl, rfl, rfl⟩
    intro i hi
    exact List.getElem?_set_ne (Ne.symm hi)

/-- Witness for C7 at a concrete full table (`next == end`). -/
theorem drc_try_insert_spec_witness :
    VMGcRefActivationsTable.tryInsert ⟨⟨0, 0, []⟩, [], []⟩ 6 =
      (⟨⟨0, 0, []⟩, [], []⟩, Except.error 6) :=
  (drc_try_insert_spec ⟨⟨0, 0, []⟩, [], []⟩ 6 (by decide) (by decide)).1 rfl

/-- C8: `grow_bump_chunk()` (with the host allocation succeeding)
installs a zero-initialized chunk of capacity `2 * capacity` clamped into
`[INITIAL_CAPACITY, MAX_CAPACITY]` (the source computes `min` with the max
then `max` with the min, equivalent for `INITIAL ≤ MAX`); on host
allocation failure the alloc — including its chunk — is retained entirely
unchanged.  `INITIAL_CAPACITY` is 4 KiB over the 4-byte slot size, i.e.
1024 slots, and `MAX_CAPACITY` is 128 MiB over the slot size. -/
theorem drc_grow_bump_chunk_spec :
    ∀ a : VMGcRefTableAlloc,
      a.growBumpChunk true =
        { a with chunk := (List.replicate
            (max (min (a.capacity * 2) VMGcRefTableAlloc.MAX_CAPACITY)
              VMGcRefTableAlloc.INITIAL_CAPACITY) 0) } ∧
      a.growBumpChunk false = a ∧
      VMGcRefTableAlloc.INITIAL_CAPACITY = 4 * 1024 / 4 ∧
      VMGcRefTableAlloc.INITIAL_CAPACITY = 1024 ∧
      VMGcRefTableAlloc.MAX_CAPACITY = 128 * 1024 * 1024 / 4 ∧
      VMGcRefTableAlloc.INITIAL_CAPACITY ≤ VMGcRefTableAlloc.MAX_CAPACITY := by
  intro a
  exact ⟨rfl, rfl, rfl, rfl, rfl, by decide⟩

/-- C9: `alloc_raw` either (free list answers `None`) returns the
recoverable `Err(layout.size)` with the heap unchanged apart from the
trace-info cache, or (free list carves a block at `idx`) returns `Ok` with
the header at `idx` initialized to `ref_count = 1` and
`object_size = layout.size`, without touching the activations table. -/
theorem drc_alloc_raw_spec :
    ∀ (h : DrcHeap) (header : VMGcHeaderM) (layout : GcLayoutModel) (layoutSize : Nat),
      (DrcHeap.allocRaw h header layout layoutSize none).2 = Except.error layoutSize ∧
      (DrcHeap.allocRaw h header layout layoutSize none).1 =
        { h with traceInfos := (DrcHeap.allocRaw h header layout layoutSize none).1.traceInfos } ∧
      ∀ idx : Nat,
        (DrcHeap.allocRaw h header layout layoutSize (some idx)).2 = Except.ok idx ∧
        lookupObj (DrcHeap.allocRaw h header layout layoutSize (some idx)).1.objects idx =
          some ⟨1, layoutSize, header.isExternKind, 0, []⟩ ∧
        (DrcHeap.allocRaw h header layout layoutSize (some idx)).1.activationsTable =
          h.activationsTable := by
  intro h header layout layoutSize
  cases hty : header.ty with
  | none =>
    have eN : DrcHeap.allocRaw h header layout layoutSize none =
        (h, Except.error layoutSize) := by
      simp only [DrcHeap.allocRaw, hty]
    have eS : ∀ idx, DrcHeap.allocRaw h header layout layoutSize (some idx) =
        ({ h with objects :=
            (setObj h.objects idx ⟨1, layoutSize, header.isExternKind, 0, []⟩) },
          Except.ok idx) := by
      intro idx
      simp only [DrcHeap.allocRaw, hty]
    rw [eN]
    refine ⟨rfl, rfl, ?_⟩
    intro idx
    rw [eS idx]
    exact ⟨rfl, lookupObj_setObj_self _ _ _, rfl⟩
  | some ty =>
    have eN : DrcHeap.allocRaw h header layout layoutSize none =
        (h.ensureTraceInfo ty layout, Except.error layoutSize) := by
      simp only [DrcHeap.allocRaw, hty]
    have eS : ∀ idx, DrcHeap.allocRaw h header layout layoutSize (some idx) =
        ({ (h.ensureTraceInfo ty layout) with objects :=
            (setObj (h.ensureTraceInfo ty layout).objects idx
              ⟨1, layoutSize, header.isExternKind, 0, []⟩) },
          Except.ok idx) := by
      intro idx
      simp only [DrcHeap.allocRaw, hty]
    rw [eN]
    refine ⟨rfl, ensureTraceInfo_shape h ty layout, ?_⟩
    intro idx
    rw [eS idx]
    refine ⟨rfl, lookupObj_setObj_self _ _ _, ?_⟩
    show (h.ensureTraceInfo ty layout).activationsTable = h.activationsTable
    rw [ensureTraceInfo_shape h ty layout]

/-- C4: the write barrier increments the source first, then dec-refs the
old destination value, then overwrites the slot; consequently a
self-assignment `write_gc_ref(dest = slot holding R, source = Some(R))`
with `ref_count(R) = 1` leaves the heap (and host-data table) entirely
unchanged — `R` is still allocated with ref count 1 and no deallocation
occurred — and the slot still holds `R`. -/
theorem drc_write_gc_ref_self_assignment
    (hdt : List Nat) (h : DrcHeap) (r : Nat) (o : DrcObject)
    (hi31 : isI31 r = false) (hl : lookupObj h.objects r = some o)
    (hrc : o.refCount = 1) (hds : h.decRefStack = some []) :
    DrcHeap.writeGcRef hdt h (some r) (some r) = (hdt, h, some r) := by
  have hinc : h.incRef r = { h with objects := incCount h.objects r } := by
    unfold DrcHeap.incRef
    rw [if_neg (by simp [hi31])]
  have hl' : lookupObj (incCount h.objects r) r =
      some { o with refCount := o.refCount + 1 } := by
    rw [lookupObj_incCount_self, hl]
    rfl
  have hone := decRef_single hdt { h with objects := incCount h.objects r } r
    { o with refCount := o.refCount + 1 } [] hds hi31 hl' (show 2 ≤ o.refCount + 1 by omega)
  have hw : DrcHeap.writeGcRef hdt h (some r) (some r) =
      ((DrcHeap.decRefAndMaybeDealloc hdt (h.incRef r) r).1,
        (DrcHeap.decRefAndMaybeDealloc hdt (h.incRef r) r).2, some r) := rfl
  rw [hw, hinc, hone, decCount_incCount]
  rw [show (some [] : Option (List Nat)) = h.decRefStack from hds.symm]

/-- Witness for C4: a concrete heap whose single object (raw index 2) has
ref count 1 and stores a self-reference; the self-assigning write barrier
is the identity on the state. -/
theorem drc_write_gc_ref_self_assignment_witness :
    DrcHeap.writeGcRef []
        ⟨[], 0, ⟨⟨0, 2, [0, 0]⟩, [], []⟩, [(2, ⟨1, 16, false, 0, [2]⟩)], some []⟩
        (some 2) (some 2) =
      ([], ⟨[], 0, ⟨⟨0, 2, [0, 0]⟩, [], []⟩, [(2, ⟨1, 16, false, 0, [2]⟩)], some []⟩,
        some 2) :=
  drc_write_gc_ref_self_assignment []
    ⟨[], 0, ⟨⟨0, 2, [0, 0]⟩, [], []⟩, [(2, ⟨1, 16, false, 0, [2]⟩)], some []⟩
    2 ⟨1, 16, false, 0, [2]⟩ rfl rfl rfl rfl

/-- C5: after the sweep phase of a collection, every slot of the bump
chunk is zero, the bump finger `next` is back at the beginning of the
chunk, and the scratch precise set is empty.  The hypothesis is the
table's standing invariant that the slots at or beyond `next` (the
unfilled suffix) are zero — the filled prefix is zeroed by the sweep
itself, and a grown chunk is zero-initialized. -/
theorem drc_sweep_postconditions
    (allocOk : Bool) (hdt : List Nat) (h : DrcHeap)
    (hzero : ∀ s ∈ h.activationsTable.alloc.chunk.drop h.activationsTable.alloc.len, s = 0) :
    (∀ s ∈ (DrcHeap.sweep allocOk hdt h).2.activationsTable.alloc.chunk, s = 0) ∧
    (DrcHeap.sweep allocOk hdt h).2.activationsTable.alloc.next = 0 ∧
    (DrcHeap.sweep allocOk hdt h).2.activationsTable.preciseStackRoots = [] := by
  rw [sweep_decomposed]
  have hact := drainRoots_activations
    (DrcHeap.sweepBumpChunk allocOk hdt h).2.activationsTable.overApproximatedStackRoots
    (DrcHeap.sweepBumpChunk allocOk hdt h).1
    { (DrcHeap.sweepBumpChunk allocOk hdt h).2 with activationsTable :=
        { alloc := (DrcHeap.sweepBumpChunk allocOk hdt h).2.activationsTable.alloc
          overApproximatedStackRoots :=
            (DrcHeap.sweepBumpChunk allocOk hdt h).2.activationsTable.preciseStackRoots
          preciseStackRoots := [] } }
  rw [hact]
  have hzeroed : ∀ s ∈ (DrcHeap.sweepBumpChunk allocOk hdt h).2.activationsTable.alloc.chunk,
      s = 0 := by
    rw [sweepBumpChunk_alloc]
    unfold VMGcRefTableAlloc.reset
    split
    · exact growBumpChunk_all_zero allocOk (zeroFirstSlots_all_zero hzero)
    · exact zeroFirstSlots_all_zero hzero
  exact ⟨hzeroed, by rw [sweepBumpChunk_alloc]; rfl, rfl⟩

/-- Witness for C5: a two-slot table with one filled slot holding the ref
of the heap's single object; after the sweep the chunk is all zeros, the
finger is reset and the precise set is empty. -/
theorem drc_sweep_postconditions_witness :
    (∀ s ∈ (DrcHeap.sweep true []
        ⟨[], 0, ⟨⟨1, 2, [2, 0]⟩, [], []⟩, [(2, ⟨1, 16, false, 0, []⟩)],
          some []⟩).2.activationsTable.alloc.chunk, s = 0) ∧
    (DrcHeap.sweep true []
        ⟨[], 0, ⟨⟨1, 2, [2, 0]⟩, [], []⟩, [(2, ⟨1, 16, false, 0, []⟩)],
          some []⟩).2.activationsTable.alloc.next = 0 ∧
    (DrcHeap.sweep true []
        ⟨[], 0, ⟨⟨1, 2, [2, 0]⟩, [], []⟩, [(2, ⟨1, 16, false, 0, []⟩)],
          some []⟩).2.activationsTable.preciseStackRoots = [] :=
  drc_sweep_postconditions true []
    ⟨[], 0, ⟨⟨1, 2, [2, 0]⟩, [], []⟩, [(2, ⟨1, 16, false, 0, []⟩)], some []⟩
    (by decide)

/-- C6: when a dec-ref reaches zero, the deallocation cascade runs on the
heap's explicit worklist vector (the recursion-free `cascadeLoop`), fully
frees a linear chain of `n` structs each referencing the next — for every
`n`, in particular `n = 10000` — leaves the host-data table untouched (no
externrefs involved), and puts the worklist back into the heap empty. -/
theorem drc_dealloc_cascade_chain :
    ∀ (n : Nat) (hdt : List Nat),
      (DrcHeap.decRefAndMaybeDealloc hdt (chainDrcHeap n) 2).2.objects = [] ∧
      (DrcHeap.decRefAndMaybeDealloc hdt (chainDrcHeap n) 2).2.decRefStack = some [] ∧
      (DrcHeap.decRefAndMaybeDealloc hdt (chainDrcHeap n) 2).1 = hdt := by
  intro n hdt
  have hch : cascadeLoop hdt (chainDrcHeap n).objects [2] = (hdt, []) :=
    cascadeLoop_chain n 0 hdt
  unfold DrcHeap.decRefAndMaybeDealloc
  refine ⟨?_, ?_, ?_⟩
  · show (cascadeLoop hdt (chainDrcHeap n).objects [2]).2 = []
    rw [hch]
  · rfl
  · show (cascadeLoop hdt (chainDrcHeap n).objects [2]).1 = hdt
    rw [hch]

/-- C10: whenever the bump chunk's filled length equals its capacity at
the start of a sweep, `sweep_bump_chunk` (with the host allocation
succeeding) replaces the chunk by a zeroed chunk of the doubled-and-clamped
capacity and resets the fingers; the freshly-constructed table's default
chunk has capacity zero and therefore counts as at-capacity, so the very
first sweep leaves exactly `INITIAL_CAPACITY = 1024` zeroed slots. -/
theorem drc_sweep_grows_full_chunk :
    (∀ (hdt : List Nat) (h : DrcHeap),
        h.activationsTable.alloc.len = h.activationsTable.alloc.capacity →
        (DrcHeap.sweepBumpChunk true hdt h).2.activationsTable.alloc =
          ⟨0,
            max (min (h.activationsTable.alloc.capacity * 2) VMGcRefTableAlloc.MAX_CAPACITY)
              VMGcRefTableAlloc.INITIAL_CAPACITY,
            (List.replicate
              (max (min (h.activationsTable.alloc.capacity * 2)
                  VMGcRefTableAlloc.MAX_CAPACITY)
                VMGcRefTableAlloc.INITIAL_CAPACITY) 0)⟩) ∧
    (DrcHeap.sweepBumpChunk true [] DrcHeap.new).2.activationsTable.alloc =
      ⟨0, 1024, (List.replicate 1024 0)⟩ := by
  constructor
  · intro hdt h hfull
    rw [sweepBumpChunk_alloc, if_pos hfull]
    unfold VMGcRefTableAlloc.growBumpChunk VMGcRefTableAlloc.reset VMGcRefTableAlloc.capacity
    simp [zeroFirstSlots_length]
  · decide

/-- Witness for C10 at a concrete at-capacity table (one slot, one filled
entry holding the heap's single object). -/
theorem drc_sweep_grows_full_chunk_witness :
    (DrcHeap.sweepBumpChunk true [5]
        ⟨[], 0, ⟨⟨1, 1, [2]⟩, [], []⟩, [(2, ⟨1, 16, false, 0, []⟩)],
          some []⟩).2.activationsTable.alloc =
      ⟨0,
        max (min ((⟨[], 0, ⟨⟨1, 1, [2]⟩, [], []⟩, [(2, ⟨1, 16, false, 0, []⟩)],
            some []⟩ : DrcHeap).activationsTable.alloc.capacity * 2)
            VMGcRefTableAlloc.MAX_CAPACITY)
          VMGcRefTableAlloc.INITIAL_CAPACITY,
        (List.replicate
          (max (min ((⟨[], 0, ⟨⟨1, 1, [2]⟩, [], []⟩, [(2, ⟨1, 16, false, 0, []⟩)],
              some []⟩ : DrcHeap).activationsTable.alloc.capacity * 2)
              VMGcRefTableAlloc.MAX_CAPACITY)
            VMGcRefTableAlloc.INITIAL_CAPACITY) 0)⟩ :=
  drc_sweep_grows_full_chunk.1 [5]
    ⟨[], 0, ⟨⟨1, 1, [2]⟩, [], []⟩, [(2, ⟨1, 16, false, 0, []⟩)], some []⟩ (by decide)

/-- C1: exposing a ref `r` to the mutator (`expose_gc_ref_to_wasm`) and
then running the next collection — `trace` over precise roots containing
`r` as an on-Wasm-stack root, followed by `sweep` — leaves `r` allocated
with its header (in particular its ref count) exactly as before the
collection: the trace-phase increment and the sweep-phase decrement of the
single table entry created by the expose cancel.  The hypotheses pin the
scenario of the claim: `r` is a live non-`i31` heap ref held by the host,
not yet present anywhere in the activations table, not stored in any
object's fields (so unrelated deallocation cascades cannot touch it), the
precise scratch set is empty and the worklist is in place (both standing
invariants outside a collection), and the bump fingers are well formed
(`next ≤ end`, `end` one past the chunk). -/
theorem drc_expose_then_gc_net_refcount
    (h : DrcHeap) (hdt : List Nat) (r : Nat) (o : DrcObject) (roots : List GcRoot)
    (allocOk : Bool)
    (hi31 : isI31 r = false) (hr0 : r ≠ 0)
    (hl : lookupObj h.objects r = some o) (hrc : 1 ≤ o.refCount)
    (hsafe : EdgeSafe r h.objects)
    (hover : r ∉ h.activationsTable.overApproximatedStackRoots)
    (hchunk : ∀ s ∈ h.activationsTable.alloc.chunk, s ≠ r)
    (hprec : h.activationsTable.preciseStackRoots = [])
    (hds : h.decRefStack = some [])
    (hend : h.activationsTable.alloc.endIdx = h.activationsTable.alloc.chunk.length)
    (hnext : h.activationsTable.alloc.next ≤ h.activationsTable.alloc.endIdx)
    (hroot : (⟨r, true⟩ : GcRoot) ∈ roots) :
    lookupObj
      (DrcHeap.sweep allocOk hdt ((h.exposeGcRefToWasm r).trace roots)).2.objects r =
      some o := by
  have hXo : ({ { o with refCount := o.refCount + 1 } with
      refCount := ({ o with refCount := o.refCount + 1 } : DrcObject).refCount - 1 } :
        DrcObject) = o := by
    show ({ o with refCount := o.refCount + 1 - 1 } : DrcObject) = o
    rw [Nat.add_sub_cancel]
  by_cases hfull : h.activationsTable.alloc.next = h.activationsTable.alloc.endIdx
  · -- slow path: the bump chunk is full, expose spills into the over-approx set
    have hexp : h.exposeGcRefToWasm r =
        { h with activationsTable :=
            { h.activationsTable with
                overApproximatedStackRoots :=
                  (r :: h.activationsTable.overApproximatedStackRoots) } } := by
      unfold DrcHeap.exposeGcRefToWasm
      rw [insertWithoutGc_slow _ _ hfull]
      unfold insertSet
      rw [if_neg hover]
    rw [hexp, sweep_decomposed]
    set h1 : DrcHeap :=
      { h with activationsTable :=
          { h.activationsTable with
              overApproximatedStackRoots :=
                (r :: h.activationsTable.overApproximatedStackRoots) } } with hh1
    set h2 : DrcHeap := h1.trace roots with hh2
    set sB := DrcHeap.sweepBumpChunk allocOk hdt h2 with hsB
    have hnotp : r ∉ h1.activationsTable.preciseStackRoots := by
      rw [show h1.activationsTable.preciseStackRoots =
        h.activationsTable.preciseStackRoots from rfl, hprec]
      exact List.not_mem_nil r
    have htr := trace_inc roots h1 r o hi31 hl hsafe hnotp hroot
    rw [← hh2] at htr
    have hfrm := trace_frame roots h1
    rw [← hh2] at hfrm
    have h2alloc : h2.activationsTable.alloc = h.activationsTable.alloc := hfrm.1.trans rfl
    have h2over : h2.activationsTable.overApproximatedStackRoots =
        r :: h.activationsTable.overApproximatedStackRoots := hfrm.2.1.trans rfl
    have h2ds : h2.decRefStack = some [] :=
      hfrm.2.2.1.trans (show h1.decRefStack = some [] from hds)
    have hslots : h2.activationsTable.alloc.chunk.take h2.activationsTable.alloc.len =
        h.activationsTable.alloc.chunk.take h.activationsTable.alloc.len := by
      rw [h2alloc]
    have hpre : ∀ s ∈ h.activationsTable.alloc.chunk.take h.activationsTable.alloc.len,
        s ≠ r := fun s hs => hchunk s (List.take_subset _ _ hs)
    have hsw := sweepChunkSlots_frame r
      (h.activationsTable.alloc.chunk.take h.activationsTable.alloc.len) hdt h2
      htr.2.1 hpre h2ds
    have hsBobj : sB.2.objects = (DrcHeap.sweepChunkSlots hdt h2
        (h.activationsTable.alloc.chunk.take h.activationsTable.alloc.len)).2.objects := by
      rw [hsB, sweepBumpChunk_objects, hslots]
    have hsBover : sB.2.activationsTable.overApproximatedStackRoots =
        r :: h.activationsTable.overApproximatedStackRoots := by
      rw [hsB, sweepBumpChunk_over, sweepChunkSlots_activations, h2over]
    have hsBds : sB.2.decRefStack = some [] := by
      rw [hsB, sweepBumpChunk_decRefStack, hslots]
      exact hsw.2.2.2
    have hsBlook : lookupObj sB.2.objects r =
        some { o with refCount := o.refCount + 1 } := by
      rw [hsBobj]
      exact hsw.1.trans htr.1
    have hsBsafe : EdgeSafe r sB.2.objects := by
      rw [hsBobj]
      exact hsw.2.1
    rw [hsBover]
    have hrest : ∀ s ∈ h.activationsTable.overApproximatedStackRoots, s ≠ r :=
      fun s hs heq => hover (heq ▸ hs)
    have hfin := drainRoots_dec_once r h.activationsTable.overApproximatedStackRoots sB.1
      { sB.2 with activationsTable :=
          { alloc := sB.2.activationsTable.alloc
            overApproximatedStackRoots := sB.2.activationsTable.preciseStackRoots
            preciseStackRoots := [] } }
      { o with refCount := o.refCount + 1 }
      hi31 hsBlook (show 2 ≤ o.refCount + 1 by omega) hsBsafe hrest hsBds
    exact hfin.1.trans (congrArg some hXo)
  · -- fast path: expose writes into the bump chunk at `next`
    have hlt : h.activationsTable.alloc.next < h.activationsTable.alloc.chunk.length := by
      have := lt_of_le_of_ne hnext hfull
      omega
    have hexp : h.exposeGcRefToWasm r =
        { h with activationsTable :=
            { h.activationsTable with alloc :=
                { h.activationsTable.alloc with
                    chunk := h.activationsTable.alloc.chunk.set
                      h.activationsTable.alloc.next r
                    next := h.activationsTable.alloc.next + 1 } } } := by
      unfold DrcHeap.exposeGcRefToWasm
      rw [insertWithoutGc_fast _ _ hfull]
    rw [hexp, sweep_decomposed]
    set h1 : DrcHeap :=
      { h with activationsTable :=
          { h.activationsTable with alloc :=
              { h.activationsTable.alloc with
                  chunk := h.activationsTable.alloc.chunk.set
                    h.activationsTable.alloc.next r
                  next := h.activationsTable.alloc.next + 1 } } } with hh1
    set h2 : DrcHeap := h1.trace roots with hh2
    set sB := DrcHeap.sweepBumpChunk allocOk hdt h2 with hsB
    have hnotp : r ∉ h1.activationsTable.preciseStackRoots := by
      rw [show h1.activationsTable.preciseStackRoots =
        h.activationsTable.preciseStackRoots from rfl, hprec]
      exact List.not_mem_nil r
    have htr := trace_inc roots h1 r o hi31 hl hsafe hnotp hroot
    rw [← hh2] at htr
    have hfrm := trace_frame roots h1
    rw [← hh2] at hfrm
    have h2alloc : h2.activationsTable.alloc =
        { h.activationsTable.alloc with
            chunk := h.activationsTable.alloc.chunk.set h.activationsTable.alloc.next r
            next := h.activationsTable.alloc.next + 1 } := hfrm.1.trans rfl
    have h2over : h2.activationsTable.overApproximatedStackRoots =
        h.activationsTable.overApproximatedStackRoots := hfrm.2.1.trans rfl
    have h2ds : h2.decRefStack = some [] :=
      hfrm.2.2.1.trans (show h1.decRefStack = some [] from hds)
    have hlen : VMGcRefTableAlloc.len
        { h.activationsTable.alloc with
            chunk := h.activationsTable.alloc.chunk.set h.activationsTable.alloc.next r
            next := h.activationsTable.alloc.next + 1 } =
        h.activationsTable.alloc.next + 1 := by
      show (h.activationsTable.alloc.chunk.set h.activationsTable.alloc.next r).length -
        (h.activationsTable.alloc.endIdx - (h.activationsTable.alloc.next + 1)) =
          h.activationsTable.alloc.next + 1
      rw [List.length_set]
      omega
    have hslots : h2.activationsTable.alloc.chunk.take h2.activationsTable.alloc.len =
        h.activationsTable.alloc.chunk.take h.activationsTable.alloc.next ++ [r] := by
      rw [h2alloc]
      show (h.activationsTable.alloc.chunk.set h.activationsTable.alloc.next r).take
        (VMGcRefTableAlloc.len
          { h.activationsTable.alloc with
              chunk := h.activationsTable.alloc.chunk.set h.activationsTable.alloc.next r
              next := h.activationsTable.alloc.next + 1 }) = _
      rw [hlen]
      exact take_set_succ _ _ _ hlt
    have hpre : ∀ s ∈ h.activationsTable.alloc.chunk.take h.activationsTable.alloc.next,
        s ≠ r := fun s hs => hchunk s (List.take_subset _ _ hs)
    have hsw := sweepChunkSlots_dec_once r
      (h.activationsTable.alloc.chunk.take h.activationsTable.alloc.next) hdt h2
      { o with refCount := o.refCount + 1 } hr0 hi31 htr.1
      (show 2 ≤ o.refCount + 1 by omega) htr.2.1 hpre h2ds
    have hsBobj : sB.2.objects = (DrcHeap.sweepChunkSlots hdt h2
        (h.activationsTable.alloc.chunk.take h.activationsTable.alloc.next ++
          [r])).2.objects := by
      rw [hsB, sweepBumpChunk_objects, hslots]
    have hsBover : sB.2.activationsTable.overApproximatedStackRoots =
        h.activationsTable.overApproximatedStackRoots := by
      rw [hsB, sweepBumpChunk_over, sweepChunkSlots_activations, h2over]
    have hsBds : sB.2.decRefStack = some [] := by
      rw [hsB, sweepBumpChunk_decRefStack, hslots]
      exact hsw.2.2.2
    have hsBlook : lookupObj sB.2.objects r = some o := by
      rw [hsBobj]
      exact hsw.1.trans (congrArg some hXo)
    have hsBsafe : EdgeSafe r sB.2.objects := by
      rw [hsBobj]
      exact hsw.2.1
    rw [hsBover]
    have hrest : ∀ s ∈ h.activationsTable.overApproximatedStackRoots, s ≠ r :=
      fun s hs heq => hover (heq ▸ hs)
    have hfin := drainRoots_frame r h.activationsTable.overApproximatedStackRoots sB.1
      { sB.2 with activationsTable :=
          { alloc := sB.2.activationsTable.alloc
            overApproximatedStackRoots := sB.2.activationsTable.preciseStackRoots
            preciseStackRoots := [] } }
      hsBsafe hrest hsBds
    exact hfin.1.trans hsBlook

/-- Witness for C1: one live object at raw index 2 (ref count 1), a bump
chunk with room, and a root list containing exactly that ref; the
collection leaves the object allocated with ref count 1. -/
theorem drc_expose_then_gc_net_refcount_witness :
    lookupObj
      (DrcHeap.sweep true []
        ((DrcHeap.exposeGcRefToWasm
          ⟨[], 0, ⟨⟨0, 2, [0, 0]⟩, [], []⟩, [(2, ⟨1, 16, false, 0, []⟩)], some []⟩
          2).trace [⟨2, true⟩])).2.objects 2 =
      some ⟨1, 16, false, 0, []⟩ :=
  drc_expose_then_gc_net_refcount
    ⟨[], 0, ⟨⟨0, 2, [0, 0]⟩, [], []⟩, [(2, ⟨1, 16, false, 0, []⟩)], some []⟩
    [] 2 ⟨1, 16, false, 0, []⟩ [⟨2, true⟩] true
    rfl (by decide) rfl (by decide) (by decide) (by decide) (by decide) rfl rfl rfl
    (by decide) (by decide)

end Drc
